import Mathlib

/-!
The cpedb-aggregator: shallow embedding and verified properties.

The embedding follows `main.go` and `pkg/types/*.go`.

* Go strings are Lean `String`s (sequences of Unicode code points); every string the
  program handles comes out of `encoding/json`, which yields valid UTF-8.
* Go slices are `List`s (`nil` and the empty slice are both `[]`).
* Go `int` is a 64-bit two's-complement integer: arithmetic on it goes through `wrapInt`.
* `time.Time` is an instant, counted in nanoseconds since the Unix epoch.
* Unbounded `for` loops take a fuel argument; `none` means the fuel ran out.
-/

set_option autoImplicit false
set_option linter.dupNamespace false

namespace CpedbAggregator

/-! ## Data model (`pkg/types`) -/

/-- One display title of a CPE (`types.Title`). -/
structure Title where
  Title : String
  Lang : String
deriving DecidableEq, Repr

/-- A successor reference of a deprecated CPE (`types.DeprecatedCpe`). -/
structure DeprecatedCpe where
  CPEName : String
  CPENameID : String
deriving DecidableEq, Repr

/-- The upstream entity (`types.CPE`). -/
structure CPE where
  Deprecated : Bool
  CPEName : String
  CPENameID : String
  LastModified : String
  Created : String
  Titles : List Title
  DeprecatedBy : List DeprecatedCpe
deriving DecidableEq, Repr

/-- The Record of the store (`types.NistProduct`). -/
structure NistProduct where
  CPE : CPE
deriving DecidableEq, Repr

/-- The DerivedView of the store (`types.OpenCPEProduct`). -/
structure OpenCPEProduct where
  Name : String
  Title : String
  Deprecated : Bool
  DeprecatedOver : String
deriving DecidableEq, Repr

/-- The content of one shard (`types.AggregatorResult`). -/
structure AggregatorResult where
  Nist : List NistProduct
  Opencpe : List OpenCPEProduct
deriving DecidableEq, Repr

/-- The response envelope of the upstream API (`types.Response`). -/
structure Response where
  ResultsPerPage : Int
  StartIndex : Int
  TotalResults : Int
  Format : String
  Version : String
  Timestamp : String
  Products : List NistProduct
deriving DecidableEq, Repr

/-! ## Constants of `main.go` -/

/-- The compile-time constants of `main.go` that steer `fetchCPEs`, gathered in a record so
that the page size can be varied. -/
structure Config where
  ResultsPerPage : Int
  IsTest : Bool
  TestOffset : Int
  TestResultsPerPage : Int
deriving DecidableEq, Repr

/-- The values the constants have in `main.go`. -/
def sourceConfig : Config :=
  { ResultsPerPage := 10000, IsTest := false, TestOffset := 10, TestResultsPerPage := 10 }

/-- Go `int` on a 64-bit platform: reduction of an integer into `[-2^63, 2^63)`. -/
def wrapInt (x : Int) : Int := (x + 2 ^ 63) % 2 ^ 64 - 2 ^ 63

/-! ## `MergeAggregatorResults` -/

/-- Inner loop of the first half of `MergeAggregatorResults` (lines 187-192): scan the new
records, stop at the first one whose `CPENameID` equals that of the old record. -/
def findNist (oldNistProduct : NistProduct) : List NistProduct → Option NistProduct
  | [] => none
  | newNistProduct :: rest =>
    if oldNistProduct.CPE.CPENameID = newNistProduct.CPE.CPENameID then some newNistProduct
    else findNist oldNistProduct rest

/-- Inner loop of the second half of `MergeAggregatorResults` (lines 204-209). -/
def findOpenCpe (oldOpenCpeProduct : OpenCPEProduct) : List OpenCPEProduct → Option OpenCPEProduct
  | [] => none
  | newNistProduct :: rest =>
    if oldOpenCpeProduct.Name = newNistProduct.Name then some newNistProduct
    else findOpenCpe oldOpenCpeProduct rest

/-- Body of the first outer loop of `MergeAggregatorResults` (lines 185-200): append the
matching new record when the scan found one, the old record otherwise. -/
def mergeNistStep (newResult : AggregatorResult) (finalNist : List NistProduct)
    (oldNistProduct : NistProduct) : List NistProduct :=
  match findNist oldNistProduct newResult.Nist with
  | none => finalNist ++ [oldNistProduct]
  | some found => finalNist ++ [found]

/-- Body of the second outer loop of `MergeAggregatorResults` (lines 202-217). -/
def mergeOpencpeStep (newResult : AggregatorResult) (finalOpencpe : List OpenCPEProduct)
    (oldOpenCpeProduct : OpenCPEProduct) : List OpenCPEProduct :=
  match findOpenCpe oldOpenCpeProduct newResult.Opencpe with
  | none => finalOpencpe ++ [oldOpenCpeProduct]
  | some found => finalOpencpe ++ [found]

/-- The function `MergeAggregatorResults` of `main.go` (lines 182-219): both outer loops range
over the OLD lists and append one entry per old entry. -/
def MergeAggregatorResults (newResult oldResult : AggregatorResult) : AggregatorResult :=
  { Nist := oldResult.Nist.foldl (mergeNistStep newResult) [],
    Opencpe := oldResult.Opencpe.foldl (mergeOpencpeStep newResult) [] }

/-- The per-shard reconciliation step of `main` (lines 136-148): the merge is only called when
the shard file already has content, otherwise the freshly grouped data is written as is.
`existing = none` stands for a zero-length (or just created) file. -/
def reconcileShard (vendorProduct : AggregatorResult) (existing : Option AggregatorResult) :
    AggregatorResult :=
  match existing with
  | some existingProduct => MergeAggregatorResults vendorProduct existingProduct
  | none => vendorProduct

/-! ## Library functions used by the shard router -/

namespace strings

/-- Worker of `Split` for a non-empty separator: `skip` counts the characters of a matched
separator that are still to be dropped, `cur` is the current field, reversed. -/
def splitGo (sep : List Char) : Nat → List Char → List Char → List (List Char)
  | _, cur, [] => [cur.reverse]
  | skip + 1, cur, _ :: rest => splitGo sep skip cur rest
  | 0, cur, c :: rest =>
    if sep.isPrefixOf (c :: rest) then cur.reverse :: splitGo sep (sep.length - 1) [] rest
    else splitGo sep 0 (c :: cur) rest

/-- Go `strings.Split(s, sep)`: the fields of `s` between the non-overlapping occurrences of
`sep`, leftmost first; an empty `sep` splits after every code point. -/
def Split (s sep : String) : List String :=
  if sep.data = [] then s.data.map (fun c => String.mk [c])
  else (splitGo sep.data 0 [] s.data).map String.mk

/-- Worker of `ReplaceAll` for a non-empty pattern. -/
def replaceGo (old new : List Char) : Nat → List Char → List Char
  | _, [] => []
  | skip + 1, _ :: rest => replaceGo old new skip rest
  | 0, c :: rest =>
    if old.isPrefixOf (c :: rest) then new ++ replaceGo old new (old.length - 1) rest
    else c :: replaceGo old new 0 rest

/-- Go `strings.ReplaceAll(s, old, new)`: every non-overlapping occurrence of `old`, leftmost
first, becomes `new`; an empty `old` matches before every code point and at the end. -/
def ReplaceAll (s old new : String) : String :=
  if old.data = [] then String.mk (new.data ++ s.data.flatMap (fun c => c :: new.data))
  else String.mk (replaceGo old.data new.data 0 s.data)

end strings

namespace filepath

/-- Lexical elimination of empty, `.` and `..` segments, as `filepath.Clean` does on a
slash-separated path; `out` is the stack of kept segments, innermost first. -/
def cleanSegments (rooted : Bool) : List String → List String → List String
  | out, [] => out.reverse
  | out, seg :: rest =>
    if seg = "" ∨ seg = "." then cleanSegments rooted out rest
    else if seg = ".." then
      match out with
      | top :: below =>
        if top = ".." then cleanSegments rooted (seg :: out) rest
        else cleanSegments rooted below rest
      | [] =>
        if rooted then cleanSegments rooted [] rest
        else cleanSegments rooted [seg] rest
    else cleanSegments rooted (seg :: out) rest

/-- Go `filepath.Clean` on a Unix path: the shortest equivalent path by purely lexical
processing; the empty result is `.`. -/
def Clean (path : String) : String :=
  let rooted : Bool := path.data.head? = some '/'
  let body := String.intercalate "/" (cleanSegments rooted [] (strings.Split path "/"))
  if rooted then "/" ++ body
  else if body = "" then "."
  else body

/-- Go `filepath.Join`: leading empty elements are skipped, the rest is joined with `/` and
cleaned; without a non-empty element the result is the empty string. -/
def Join (elem : List String) : String :=
  match elem.dropWhile (fun e => e = "") with
  | [] => ""
  | kept => Clean (String.intercalate "/" kept)

end filepath

/-! ## The shard router -/

/-- The character class inside the regular expression `nameSanitize` (line 39), before
negation: `\w` (ASCII letters, digits, underscore), the hyphen and the dot. -/
def nameSanitizeKeeps (c : Char) : Bool :=
  c.isAlphanum || c == '_' || c == '-' || c == '.'

/-- The call `nameSanitize.ReplaceAllString(src, repl)` for a replacement without `$`: the
expression matches exactly one code point outside the class (a negated class also matches a
newline under the Perl flags of `regexp.MustCompile`), and every match is replaced. -/
def nameSanitize_ReplaceAllString (src repl : String) : String :=
  String.mk (src.data.flatMap (fun c => if nameSanitizeKeeps c then [c] else repl.data))

/-- The function `sanitize` of `main.go` (lines 309-311). -/
def sanitize (str newChar : String) : String :=
  strings.ReplaceAll (nameSanitize_ReplaceAllString str newChar) "./" (newChar ++ "/")

/-- The function `computeJsonFilePath` of `main.go` (lines 297-307); the Go triple
`(vendorDir, jsonFilePath, err)` is an `Except`. -/
def computeJsonFilePath (cpe : String) : Except String (String × String) :=
  let parts := strings.Split cpe ":"
  if parts.length < 5 then Except.error "invalid CPE string format"
  else
    let vendorPart := sanitize (parts.getD 3 "") "_"
    let productPart := sanitize (parts.getD 4 "") "_"
    let vendorDir := filepath.Join [".", vendorPart]
    let jsonFilePath := filepath.Join [vendorDir, productPart ++ ".json"]
    Except.ok (vendorDir, jsonFilePath)

/-! ## `buildOpenCpeProduct` -/

/-- Body of the loop over the titles in `buildOpenCpeProduct` (lines 318-322). -/
def titleStep (opencpe : OpenCPEProduct) (title : Title) : OpenCPEProduct :=
  if opencpe.Title = "" ∨ title.Lang = "en" then { opencpe with Title := title.Title }
  else opencpe

/-- The function `buildOpenCpeProduct` of `main.go` (lines 313-327). -/
def buildOpenCpeProduct (product : NistProduct) : OpenCPEProduct :=
  let opencpe : OpenCPEProduct :=
    { Name := product.CPE.CPEName, Title := "", Deprecated := product.CPE.Deprecated,
      DeprecatedOver := "" }
  let opencpe := product.CPE.Titles.foldl titleStep opencpe
  match opencpe.Deprecated, product.CPE.DeprecatedBy with
  | true, first :: _ => { opencpe with DeprecatedOver := first.CPEName }
  | _, _ => opencpe

/-! ## Time (`time.Time`, `time.Duration`) -/

/-- An instant of `time.Time`, in nanoseconds since the Unix epoch. The instants of a run
(a Unix second read from the update file, the wall clock, sums with `MaxIntervalDate`) lie far
inside the range of `time.Time`, so `Add` is plain addition and `Before`, `After` compare
instants. -/
structure Time where
  unixNano : Int
deriving DecidableEq, Repr

/-- Go `time.Unix(sec, 0)`. -/
def Time.Unix (sec : Int) : Time := { unixNano := sec * 1000000000 }

/-- Go `t.Add(d)`, the duration `d` in nanoseconds. -/
def Time.Add (t : Time) (d : Int) : Time := { unixNano := t.unixNano + d }

/-- Go `t.Before(u)`. -/
def Time.Before (t u : Time) : Bool := decide (t.unixNano < u.unixNano)

/-- Go `t.After(u)`. -/
def Time.After (t u : Time) : Bool := decide (u.unixNano < t.unixNano)

/-- Go `time.Hour`, in nanoseconds. -/
def Hour : Int := 60 * 60 * 1000000000

/-- The constant `MaxIntervalDate` of `main.go` (line 35). -/
def MaxIntervalDate : Int := (120 - 1) * 24 * Hour

/-- Decimal rendering of a natural number, zero-padded on the left to `width` digits. -/
def padNat (width n : Nat) : String :=
  let digits := (Nat.toDigits 10 n)
  String.mk (List.replicate (width - digits.length) '0' ++ digits)

/-- The proleptic Gregorian date `(year, month, day)` of a day count since 1970-01-01. -/
def civilFromDays (days : Int) : Int × Nat × Nat :=
  let z := days + 719468
  let era := z / 146097
  let doe := z - era * 146097
  let yoe := (doe - doe / 1460 + doe / 36524 - doe / 146096) / 365
  let doy := doe - (365 * yoe + yoe / 4 - yoe / 100)
  let mp := (5 * doy + 2) / 153
  let d := doy - (153 * mp + 2) / 5 + 1
  let m := if mp < 10 then mp + 3 else mp - 9
  let y := yoe + era * 400
  (if m ≤ 2 then y + 1 else y, m.toNat, d.toNat)

/-- A `time.Location`: the offset from UTC, in seconds east, in force at a Unix second.
Both `time.Unix` and `time.Now` return times in the process-local location, which `main`
never changes, so the location is an input of the run. -/
structure Location where
  offset : Int → Int

/-- The location `time.UTC`. -/
def UTC : Location := { offset := fun _ => 0 }

/-- The whole Unix second an instant lies in. -/
def Time.unixSec (t : Time) : Int := t.unixNano / 1000000000

/-- The layout `ISO8601Format` (line 34) applied to a Unix second in a location: the civil
date and time of day of the second shifted by the offset in force, followed by the letter
`Z`, which the layout holds as literal text (it is not followed by a zone offset). -/
def formatSecond (loc : Location) (sec : Int) : String :=
  let abs := sec + loc.offset sec
  let date := civilFromDays (abs / 86400)
  let sod := (abs % 86400).toNat
  let year := if date.1 < 0 then "-" ++ padNat 4 date.1.natAbs else padNat 4 date.1.natAbs
  year ++ "-" ++ padNat 2 date.2.1 ++ "-" ++ padNat 2 date.2.2 ++ "T" ++
    padNat 2 (sod / 3600) ++ ":" ++ padNat 2 (sod % 3600 / 60) ++ ":" ++ padNat 2 (sod % 60) ++ "Z"

/-- Go `t.Format(ISO8601Format)` for a time in the location `loc`: the layout has no
fractional-second element, so the string is a function of the whole Unix second of `t`. -/
def Time.FormatISO8601 (loc : Location) (t : Time) : String :=
  formatSecond loc t.unixSec

/-! ## `fetchCPEs` -/

/-- The constant `ApiEndpoint` of `main.go` (line 23). -/
def ApiEndpoint : String := "https://services.nvd.nist.gov/rest/json/cpes/2.0/"

/-- One request of `fetchCPEs`: the URL string built at lines 242-247, the parameters that
went into it and the `apiKey` header. The date filters are absent in the URL of the `else`
branch. -/
structure Request where
  url : String
  lastModStartDate : Option String
  lastModEndDate : Option String
  resultsPerPage : Int
  startIndex : Int
  apiKey : String
deriving DecidableEq, Repr

/-- What one call of `fetchCPEs` did: the slice it returned and the requests it issued, in
order. -/
structure FetchRun where
  nistProducts : List NistProduct
  requests : List Request
deriving DecidableEq, Repr

/-- The URL choice of lines 242-247. -/
def buildRequest (startDate endDate apiKey : String) (resultsPerPage offset : Int) : Request :=
  if startDate ≠ endDate then
    { url := ApiEndpoint ++ "?lastModStartDate=" ++ startDate ++ "&lastModEndDate=" ++ endDate
        ++ "&resultsPerPage=" ++ toString resultsPerPage ++ "&startIndex=" ++ toString offset,
      lastModStartDate := some startDate, lastModEndDate := some endDate,
      resultsPerPage := resultsPerPage, startIndex := offset, apiKey := apiKey }
  else
    { url := ApiEndpoint ++ "?resultsPerPage=" ++ toString resultsPerPage
        ++ "&startIndex=" ++ toString offset,
      lastModStartDate := none, lastModEndDate := none,
      resultsPerPage := resultsPerPage, startIndex := offset, apiKey := apiKey }

/-- The `for` loop of `fetchCPEs` (lines 234-292). `newRequest` stands for
`http.NewRequest("GET", url, nil)` (lines 250-254): it refuses a URL it cannot parse, and
`fetchCPEs` then returns `nil` without sending anything. The upstream maps a request that
was sent to the decoded response, or to an error for each of the later failure exits
(transport error, status other than 200, unreadable or malformed body), all of which make
`fetchCPEs` return `nil` as well. -/
def fetchLoop (cfg : Config) (newRequest : String → Except String Unit)
    (upstream : Request → Except String Response)
    (startDate endDate apiKey : String) (resultsPerPage : Int) :
    Nat → Int → List NistProduct → List Request → Option FetchRun
  | 0, _, _, _ => none
  | fuel + 1, offset, nistProducts, sent =>
    if cfg.IsTest && decide (offset ≥ cfg.TestOffset) then
      some { nistProducts := nistProducts, requests := sent }
    else
      let req := buildRequest startDate endDate apiKey resultsPerPage offset
      match newRequest req.url with
      | Except.error _ => some { nistProducts := [], requests := sent }
      | Except.ok _ =>
        match upstream req with
        | Except.error _ => some { nistProducts := [], requests := sent ++ [req] }
        | Except.ok apiResponse =>
          let nistProducts := nistProducts ++ apiResponse.Products
          let offset := wrapInt (offset + resultsPerPage)
          if offset ≥ apiResponse.TotalResults then
            some { nistProducts := nistProducts, requests := sent ++ [req] }
          else
            fetchLoop cfg newRequest upstream startDate endDate apiKey resultsPerPage fuel offset
              nistProducts (sent ++ [req])

/-- The function `fetchCPEs` of `main.go` (lines 221-295), with `fuel` bounding the number of
loop iterations. -/
def fetchCPEs (cfg : Config) (newRequest : String → Except String Unit)
    (upstream : Request → Except String Response) (fuel : Nat)
    (startDate endDate apiKey : String) : Option FetchRun :=
  let resultsPerPage := if cfg.IsTest then cfg.TestResultsPerPage else cfg.ResultsPerPage
  fetchLoop cfg newRequest upstream startDate endDate apiKey resultsPerPage fuel 0 [] []

/-- A request constructor for the worked examples: like `net/url` it refuses a URL that
holds an ASCII control character (a byte below `0x20`, or `0x7f`) and accepts the others. -/
def refuseControlBytes (url : String) : Except String Unit :=
  if url.data.any (fun c => decide (c.val < 32) || c.val == 127) then
    Except.error "net/url: invalid control character in URL"
  else Except.ok ()

/-- A mocked upstream serving the fixed list `all` in pages: it reports `all.length` as the
total and returns the records from `startIndex` on, at most `resultsPerPage` of them. -/
def pagedUpstream (all : List NistProduct) (req : Request) : Except String Response :=
  Except.ok
    { ResultsPerPage := req.resultsPerPage, StartIndex := req.startIndex,
      TotalResults := all.length, Format := "NVD_CPE", Version := "2.0", Timestamp := "",
      Products := (all.drop req.startIndex.toNat).take req.resultsPerPage.toNat }

/-! ## The window partitioning of `main` -/

/-- The `for` loop of the partitioned branch of `main` (lines 78-92): the sub-windows in the
order they are dispatched; `fuel` bounds the number of evaluations of the loop condition. -/
def partitionLoop (now : Time) : Nat → Time → List (Time × Time) → Option (List (Time × Time))
  | 0, _, _ => none
  | fuel + 1, start, dispatched =>
    if start.Before now then
      let endT := start.Add MaxIntervalDate
      let endT := if endT.After now then now else endT
      partitionLoop now fuel (start.Add MaxIntervalDate) (dispatched ++ [(start, endT)])
    else some dispatched

/-- The sub-windows of the partitioned branch of `main` for a run from `lastRunTime` to
`now`. -/
def partitionWindows (fuel : Nat) (lastRunTime now : Time) : Option (List (Time × Time)) :=
  partitionLoop now fuel lastRunTime []

/-- The arguments `(startDate, endDate)` handed to `fetchCPEs` for each sub-window (line 91):
both ends are formatted with `ISO8601Format` in the process-local location `loc`. -/
def dispatchedDates (loc : Location) (fuel : Nat) (lastRunTime now : Time) :
    Option (List (String × String)) :=
  (partitionWindows fuel lastRunTime now).map
    (fun windows => windows.map (fun w => (w.1.FormatISO8601 loc, w.2.FormatISO8601 loc)))

/-! ## Concrete data used in the worked examples -/

/-- A Record with the given identifier, key and English title, not deprecated. -/
def sampleRecord (cpeName cpeNameID title : String) : NistProduct :=
  { CPE := { Deprecated := false, CPEName := cpeName, CPENameID := cpeNameID,
             LastModified := "", Created := "", Titles := [{ Title := title, Lang := "en" }],
             DeprecatedBy := [] } }

/-- The shard content that `main` groups for a list of Records (lines 112-114). -/
def shardOf (records : List NistProduct) : AggregatorResult :=
  { Nist := records, Opencpe := records.map buildOpenCpeProduct }

/-- A catalog of `n` Records with pairwise distinct identifiers and keys. -/
def sampleCatalog (n : Nat) : List NistProduct :=
  (List.range n).map (fun i =>
    sampleRecord ("cpe:2.3:a:acme:tool:" ++ toString i) ("id-" ++ toString i) "Acme Tool")

/-! ## Theorems: `MergeAggregatorResults` -/

theorem findNist_eq_find (o : NistProduct) (l : List NistProduct) :
    findNist o l = l.find? (fun n => decide (n.CPE.CPENameID = o.CPE.CPENameID)) := by
  induction l with
  | nil => rfl
  | cons a t ih =>
    by_cases h : o.CPE.CPENameID = a.CPE.CPENameID
    · simp [findNist, List.find?, h]
    · have h2 : ¬ a.CPE.CPENameID = o.CPE.CPENameID := fun e => h e.symm
      simp [findNist, List.find?, h, h2, ih]

theorem findOpenCpe_eq_find (o : OpenCPEProduct) (l : List OpenCPEProduct) :
    findOpenCpe o l = l.find? (fun n => decide (n.Name = o.Name)) := by
  induction l with
  | nil => rfl
  | cons a t ih =>
    by_cases h : o.Name = a.Name
    · simp [findOpenCpe, List.find?, h]
    · have h2 : ¬ a.Name = o.Name := fun e => h e.symm
      simp [findOpenCpe, List.find?, h, h2, ih]

theorem foldl_mergeNistStep (newResult : AggregatorResult) (l init : List NistProduct) :
    l.foldl (mergeNistStep newResult) init = init ++ l.map (fun o =>
      (newResult.Nist.find? (fun n => decide (n.CPE.CPENameID = o.CPE.CPENameID))).getD o) := by
  induction l generalizing init with
  | nil => simp
  | cons a t ih =>
    rw [List.foldl_cons, ih, List.map_cons]
    unfold mergeNistStep
    rw [findNist_eq_find]
    cases List.find? (fun n => decide (n.CPE.CPENameID = a.CPE.CPENameID)) newResult.Nist <;> simp

theorem foldl_mergeOpencpeStep (newResult : AggregatorResult) (l init : List OpenCPEProduct) :
    l.foldl (mergeOpencpeStep newResult) init = init ++ l.map (fun o =>
      (newResult.Opencpe.find? (fun n => decide (n.Name = o.Name))).getD o) := by
  induction l generalizing init with
  | nil => simp
  | cons a t ih =>
    rw [List.foldl_cons, ih, List.map_cons]
    unfold mergeOpencpeStep
    rw [findOpenCpe_eq_find]
    cases List.find? (fun n => decide (n.Name = a.Name)) newResult.Opencpe <;> simp

theorem merge_Nist_eq (newResult oldResult : AggregatorResult) :
    (MergeAggregatorResults newResult oldResult).Nist =
      oldResult.Nist.map (fun o =>
        (newResult.Nist.find? (fun n => decide (n.CPE.CPENameID = o.CPE.CPENameID))).getD o) := by
  show List.foldl (mergeNistStep newResult) [] oldResult.Nist = _
  rw [foldl_mergeNistStep, List.nil_append]

theorem merge_Opencpe_eq (newResult oldResult : AggregatorResult) :
    (MergeAggregatorResults newResult oldResult).Opencpe =
      oldResult.Opencpe.map (fun o =>
        (newResult.Opencpe.find? (fun n => decide (n.Name = o.Name))).getD o) := by
  show List.foldl (mergeOpencpeStep newResult) [] oldResult.Opencpe = _
  rw [foldl_mergeOpencpeStep, List.nil_append]

theorem find_getD_key {α : Type} (key : α → String) (l : List α) (o : α) :
    key ((l.find? (fun n => decide (key n = key o))).getD o) = key o := by
  cases h : l.find? (fun n => decide (key n = key o)) with
  | none => rfl
  | some f => simpa using List.find?_some h

theorem find_self_of_nodup {α : Type} (key : α → String) (l : List α)
    (hnd : (l.map key).Nodup) (o : α) (ho : o ∈ l) :
    l.find? (fun n => decide (key n = key o)) = some o := by
  induction l with
  | nil => simp at ho
  | cons a t ih =>
    rw [List.map_cons, List.nodup_cons] at hnd
    by_cases h : key a = key o
    · have hao : o = a := by
        rcases List.mem_cons.mp ho with e | hm
        · exact e
        · exact absurd (h ▸ List.mem_map_of_mem key hm) hnd.1
      subst hao
      simp [List.find?]
    · have hm : o ∈ t := by
        rcases List.mem_cons.mp ho with e | hm
        · exact absurd (e ▸ rfl) h
        · exact hm
      simp [List.find?, h, ih hnd.2 hm]

/-- C1 (evaluation at the failing inputs): a NEW Record and DerivedView whose keys occur in no
OLD entry are absent from the merge result, and with empty OLD lists the result is empty
rather than NEW, whereas the empty-file path of `main` writes NEW as is. -/
theorem MergeAggregatorResults_drops_new_keys :
    MergeAggregatorResults
        (shardOf [sampleRecord "cpe:2.3:a:acme:tool:2.0:*:*:*:*:*:*:*" "id-2" "Acme Tool 2.0"])
        (shardOf [sampleRecord "cpe:2.3:a:acme:tool:1.0:*:*:*:*:*:*:*" "id-1" "Acme Tool 1.0"])
      = shardOf [sampleRecord "cpe:2.3:a:acme:tool:1.0:*:*:*:*:*:*:*" "id-1" "Acme Tool 1.0"]
    ∧ MergeAggregatorResults
        (shardOf [sampleRecord "cpe:2.3:a:acme:tool:2.0:*:*:*:*:*:*:*" "id-2" "Acme Tool 2.0"])
        (shardOf [])
      = shardOf []
    ∧ reconcileShard
        (shardOf [sampleRecord "cpe:2.3:a:acme:tool:2.0:*:*:*:*:*:*:*" "id-2" "Acme Tool 2.0"])
        none
      = shardOf [sampleRecord "cpe:2.3:a:acme:tool:2.0:*:*:*:*:*:*:*" "id-2" "Acme Tool 2.0"] := by
  decide

/-- C2: the merge result has one entry per OLD entry, in OLD order: at position `i` the first
NEW entry with the key of the `i`-th OLD entry when there is one, otherwise the `i`-th OLD
entry itself (Records keyed by `CPENameID`, DerivedViews by `Name`); the keys of the result
are the keys of OLD, so no OLD key is deleted; and for OLD = [A, B], NEW = [A2] with A2
sharing the key of A and differing in key from B, the result is [A2, B]. -/
theorem MergeAggregatorResults_positionwise (newResult oldResult : AggregatorResult) :
    (MergeAggregatorResults newResult oldResult).Nist.length = oldResult.Nist.length
    ∧ (MergeAggregatorResults newResult oldResult).Opencpe.length = oldResult.Opencpe.length
    ∧ (∀ i : Nat, (MergeAggregatorResults newResult oldResult).Nist[i]? =
        oldResult.Nist[i]?.map (fun o =>
          (newResult.Nist.find? (fun n => decide (n.CPE.CPENameID = o.CPE.CPENameID))).getD o))
    ∧ (∀ i : Nat, (MergeAggregatorResults newResult oldResult).Opencpe[i]? =
        oldResult.Opencpe[i]?.map (fun o =>
          (newResult.Opencpe.find? (fun n => decide (n.Name = o.Name))).getD o))
    ∧ (MergeAggregatorResults newResult oldResult).Nist.map (fun r => r.CPE.CPENameID) =
        oldResult.Nist.map (fun r => r.CPE.CPENameID)
    ∧ (MergeAggregatorResults newResult oldResult).Opencpe.map (fun v => v.Name) =
        oldResult.Opencpe.map (fun v => v.Name)
    ∧ (∀ (A A2 B : NistProduct) (a a2 b : OpenCPEProduct),
        A2.CPE.CPENameID = A.CPE.CPENameID → B.CPE.CPENameID ≠ A2.CPE.CPENameID →
        a2.Name = a.Name → b.Name ≠ a2.Name →
        MergeAggregatorResults { Nist := [A2], Opencpe := [a2] } { Nist := [A, B], Opencpe := [a, b] }
          = { Nist := [A2, B], Opencpe := [a2, b] }) := by
  refine ⟨?_, ?_, ?_, ?_, ?_, ?_, ?_⟩
  · rw [merge_Nist_eq, List.length_map]
  · rw [merge_Opencpe_eq, List.length_map]
  · intro i
    rw [merge_Nist_eq, List.getElem?_map]
  · intro i
    rw [merge_Opencpe_eq, List.getElem?_map]
  · rw [merge_Nist_eq, List.map_map]
    apply List.map_congr_left
    intro o _
    exact find_getD_key (fun r => r.CPE.CPENameID) newResult.Nist o
  · rw [merge_Opencpe_eq, List.map_map]
    apply List.map_congr_left
    intro o _
    exact find_getD_key (fun v => v.Name) newResult.Opencpe o
  · intro A A2 B a a2 b h1 h2 h3 h4
    have e1 := merge_Nist_eq { Nist := [A2], Opencpe := [a2] } { Nist := [A, B], Opencpe := [a, b] }
    have e2 := merge_Opencpe_eq { Nist := [A2], Opencpe := [a2] } { Nist := [A, B], Opencpe := [a, b] }
    have h2b : ¬ A.CPE.CPENameID = B.CPE.CPENameID := fun e => h2 (e.symm.trans h1.symm)
    have h4b : ¬ a.Name = b.Name := fun e => h4 (e.symm.trans h3.symm)
    simp only [List.map_cons, List.map_nil, List.find?, h1, h3, h2b, h4b, decide_True,
      decide_False, Option.getD_some, Option.getD_none] at e1 e2
    cases hm : MergeAggregatorResults { Nist := [A2], Opencpe := [a2] }
      { Nist := [A, B], Opencpe := [a, b] } with
    | mk n o =>
      rw [hm] at e1 e2
      simp only at e1 e2
      rw [e1, e2]

/-- C2 at a concrete input: OLD = [tool 1.0, tool 2.0], NEW = [an update of tool 1.0]. -/
theorem MergeAggregatorResults_positionwise_witness :
    MergeAggregatorResults
        { Nist := [sampleRecord "cpe:a" "id-1" "new title"],
          Opencpe := [buildOpenCpeProduct (sampleRecord "cpe:a" "id-1" "new title")] }
        { Nist := [sampleRecord "cpe:a" "id-1" "old title", sampleRecord "cpe:b" "id-2" "other"],
          Opencpe := [buildOpenCpeProduct (sampleRecord "cpe:a" "id-1" "old title"),
                      buildOpenCpeProduct (sampleRecord "cpe:b" "id-2" "other")] }
      = { Nist := [sampleRecord "cpe:a" "id-1" "new title", sampleRecord "cpe:b" "id-2" "other"],
          Opencpe := [buildOpenCpeProduct (sampleRecord "cpe:a" "id-1" "new title"),
                      buildOpenCpeProduct (sampleRecord "cpe:b" "id-2" "other")] } :=
  (MergeAggregatorResults_positionwise (shardOf []) (shardOf [])).2.2.2.2.2.2
    (sampleRecord "cpe:a" "id-1" "old title") (sampleRecord "cpe:a" "id-1" "new title")
    (sampleRecord "cpe:b" "id-2" "other")
    (buildOpenCpeProduct (sampleRecord "cpe:a" "id-1" "old title"))
    (buildOpenCpeProduct (sampleRecord "cpe:a" "id-1" "new title"))
    (buildOpenCpeProduct (sampleRecord "cpe:b" "id-2" "other"))
    (by decide) (by decide) (by decide) (by decide)

/-- C8: merging a shard content with itself returns it unchanged, provided no two of its
Records share a `CPENameID` and no two of its DerivedViews share a `Name`. -/
theorem MergeAggregatorResults_idempotent (X : AggregatorResult)
    (hNist : (X.Nist.map (fun r => r.CPE.CPENameID)).Nodup)
    (hOpencpe : (X.Opencpe.map (fun v => v.Name)).Nodup) :
    MergeAggregatorResults X X = X := by
  have e1 : (MergeAggregatorResults X X).Nist = X.Nist := by
    rw [merge_Nist_eq]
    conv_rhs => rw [← List.map_id X.Nist]
    apply List.map_congr_left
    intro o ho
    rw [find_self_of_nodup (fun r => r.CPE.CPENameID) X.Nist hNist o ho]
    rfl
  have e2 : (MergeAggregatorResults X X).Opencpe = X.Opencpe := by
    rw [merge_Opencpe_eq]
    conv_rhs => rw [← List.map_id X.Opencpe]
    apply List.map_congr_left
    intro o ho
    rw [find_self_of_nodup (fun v => v.Name) X.Opencpe hOpencpe o ho]
    rfl
  cases hm : MergeAggregatorResults X X with
  | mk n o =>
    rw [hm] at e1 e2
    cases X
    simp only at e1 e2
    rw [e1, e2]

/-- C8 at a concrete two-record shard. -/
theorem MergeAggregatorResults_idempotent_witness :
    MergeAggregatorResults
        (shardOf [sampleRecord "cpe:2.3:a:acme:tool:1.0" "id-1" "Tool 1.0",
                  sampleRecord "cpe:2.3:a:acme:tool:2.0" "id-2" "Tool 2.0"])
        (shardOf [sampleRecord "cpe:2.3:a:acme:tool:1.0" "id-1" "Tool 1.0",
                  sampleRecord "cpe:2.3:a:acme:tool:2.0" "id-2" "Tool 2.0"])
      = shardOf [sampleRecord "cpe:2.3:a:acme:tool:1.0" "id-1" "Tool 1.0",
                 sampleRecord "cpe:2.3:a:acme:tool:2.0" "id-2" "Tool 2.0"] :=
  MergeAggregatorResults_idempotent _ (by decide) (by decide)

/-! ## Theorems: `buildOpenCpeProduct` -/

theorem buildOpenCpeProduct_Title (product : NistProduct) :
    (buildOpenCpeProduct product).Title =
      (product.CPE.Titles.foldl titleStep
        { Name := product.CPE.CPEName, Title := "", Deprecated := product.CPE.Deprecated,
          DeprecatedOver := "" }).Title := by
  unfold buildOpenCpeProduct
  simp only []
  split <;> rfl

theorem titleStep_keep (o : OpenCPEProduct) (x : Title) (h1 : ¬ o.Title = "")
    (h2 : ¬ x.Lang = "en") : titleStep o x = o := by
  simp [titleStep, h1, h2]

theorem foldl_titleStep_last_en (titles : List Title) (init : OpenCPEProduct) (t : Title)
    (hlast : (titles.filter (fun x => decide (x.Lang = "en"))).getLast? = some t)
    (hne : t.Title ≠ "") :
    (titles.foldl titleStep init).Title = t.Title := by
  induction titles using List.reverseRecOn with
  | nil => simp at hlast
  | append_singleton l x ih =>
    rw [List.foldl_append, List.foldl_cons, List.foldl_nil]
    by_cases hx : x.Lang = "en"
    · have hf : List.filter (fun x => decide (x.Lang = "en")) (l ++ [x]) =
          List.filter (fun x => decide (x.Lang = "en")) l ++ [x] := by
        simp [List.filter_append, List.filter, hx]
      rw [hf, List.getLast?_append] at hlast
      simp at hlast
      subst hlast
      simp [titleStep, hx]
    · have hf : List.filter (fun x => decide (x.Lang = "en")) (l ++ [x]) =
          List.filter (fun x => decide (x.Lang = "en")) l := by
        simp [List.filter_append, List.filter, hx]
      rw [hf] at hlast
      have h := ih hlast
      have hne2 : ¬ (List.foldl titleStep init l).Title = "" := by
        rw [h]; exact hne
      rw [titleStep_keep _ _ hne2 hx]
      exact h

/-- C9 (counterexample): a Record whose only English title has the empty text, followed by a
French title, gets the French text as display title, which is the text of none of its
English titles. -/
theorem buildOpenCpeProduct_en_title_counterexample :
    ¬ (∀ r : NistProduct, (∃ t ∈ r.CPE.Titles, t.Lang = "en") →
        ∃ t ∈ r.CPE.Titles, t.Lang = "en" ∧ (buildOpenCpeProduct r).Title = t.Title) := by
  intro h
  have h2 := h
    { CPE := { Deprecated := false, CPEName := "cpe:2.3:a:acme:outil:1.0", CPENameID := "id-1",
               LastModified := "", Created := "",
               Titles := [{ Title := "", Lang := "en" }, { Title := "Outil Acme", Lang := "fr" }],
               DeprecatedBy := [] } }
    ⟨{ Title := "", Lang := "en" }, by decide, by decide⟩
  revert h2
  decide

/-- C9 (amended): when the last English title of a Record has a non-empty text, the display
title of `buildOpenCpeProduct` is the text of that title, whatever the other titles, their
languages and their order. -/
theorem buildOpenCpeProduct_title_last_en (r : NistProduct) (t : Title)
    (hlast : (r.CPE.Titles.filter (fun x => decide (x.Lang = "en"))).getLast? = some t)
    (hne : t.Title ≠ "") :
    (buildOpenCpeProduct r).Title = t.Title ∧ t ∈ r.CPE.Titles ∧ t.Lang = "en" := by
  refine ⟨?_, ?_⟩
  · rw [buildOpenCpeProduct_Title]
    exact foldl_titleStep_last_en _ _ t hlast hne
  · have hm := List.mem_of_getLast?_eq_some hlast
    simpa using List.mem_filter.mp hm

/-- C9 (amended) at a Record with a French, an English and a German title. -/
theorem buildOpenCpeProduct_title_last_en_witness :
    (buildOpenCpeProduct
      { CPE := { Deprecated := false, CPEName := "cpe:2.3:a:acme:tool:1.0", CPENameID := "id-1",
                 LastModified := "", Created := "",
                 Titles := [{ Title := "Outil Acme", Lang := "fr" },
                            { Title := "Acme Tool", Lang := "en" },
                            { Title := "Acme Werkzeug", Lang := "de" }],
                 DeprecatedBy := [] } }).Title = "Acme Tool" :=
  (buildOpenCpeProduct_title_last_en _ { Title := "Acme Tool", Lang := "en" }
    (by decide) (by decide)).1

/-! ## Theorems: the shard router -/

theorem nameSanitizeKeeps_iff (c : Char) :
    nameSanitizeKeeps c = true ↔
      (('a' ≤ c ∧ c ≤ 'z') ∨ ('A' ≤ c ∧ c ≤ 'Z') ∨ ('0' ≤ c ∧ c ≤ '9')
        ∨ c = '_' ∨ c = '-' ∨ c = '.') := by
  simp only [nameSanitizeKeeps, Char.isAlphanum, Char.isAlpha, Char.isUpper, Char.isLower,
    Char.isDigit, Bool.or_eq_true, Bool.and_eq_true, decide_eq_true_eq, beq_iff_eq]
  constructor
  · intro h
    rcases h with h | hdot
    · rcases h with h | hhyphen
      · rcases h with h | hunder
        · rcases h with halpha | hdigit
          · rcases halpha with hupper | hlower
            · exact .inr (.inl hupper)
            · exact .inl hlower
          · exact .inr (.inr (.inl hdigit))
        · exact .inr (.inr (.inr (.inl hunder)))
      · exact .inr (.inr (.inr (.inr (.inl hhyphen))))
    · exact .inr (.inr (.inr (.inr (.inr hdot))))
  · intro h
    rcases h with hlower | hupper | hdigit | hunder | hhyphen | hdot
    · exact .inl (.inl (.inl (.inl (.inr hlower))))
    · exact .inl (.inl (.inl (.inl (.inl hupper))))
    · exact .inl (.inl (.inl (.inr hdigit)))
    · exact .inl (.inl (.inr hunder))
    · exact .inl (.inr hhyphen)
    · exact .inr hdot

theorem replaceGo_dot_slash_id (new l : List Char) (h : '/' ∉ l) :
    strings.replaceGo ['.', '/'] new 0 l = l := by
  induction l with
  | nil => rfl
  | cons c rest ih =>
    have hrest : '/' ∉ rest := fun hm => h (List.mem_cons_of_mem _ hm)
    have hpre : List.isPrefixOf ['.', '/'] (c :: rest) = false := by
      cases rest with
      | nil => simp [List.isPrefixOf]
      | cons d r =>
        have hd : ¬ '/' = d := fun e => h (by simp [← e])
        simp [List.isPrefixOf, hd]
    rw [strings.replaceGo, hpre]
    simp [ih hrest]

theorem nameSanitize_ReplaceAllString_data (s : String) :
    (nameSanitize_ReplaceAllString s "_").data =
      s.data.map (fun c => if nameSanitizeKeeps c then c else '_') := by
  unfold nameSanitize_ReplaceAllString
  show List.flatMap s.data _ = _
  induction s.data with
  | nil => rfl
  | cons c rest ih =>
    rw [List.flatMap_cons, ih, List.map_cons]
    by_cases hc : nameSanitizeKeeps c = true
    · simp [hc]
    · simp [hc]

theorem sanitize_data (s : String) :
    (sanitize s "_").data = s.data.map (fun c => if nameSanitizeKeeps c then c else '_') := by
  have hno : '/' ∉ (nameSanitize_ReplaceAllString s "_").data := by
    rw [nameSanitize_ReplaceAllString_data]
    intro hm
    rcases List.mem_map.mp hm with ⟨c, _, hc⟩
    by_cases hk : nameSanitizeKeeps c = true
    · rw [if_pos hk] at hc
      subst hc
      exact absurd hk (by decide)
    · rw [if_neg hk] at hc
      exact absurd hc (by decide)
  unfold sanitize strings.ReplaceAll
  have hold : ¬ ("./" : String).data = [] := by decide
  rw [if_neg hold]
  show strings.replaceGo ['.', '/'] _ 0 _ = _
  rw [replaceGo_dot_slash_id _ _ hno, nameSanitize_ReplaceAllString_data]

theorem sanitize_not_mem (s : String) (c : Char) (hk : nameSanitizeKeeps c = false)
    (hu : c ≠ '_') : c ∉ (sanitize s "_").data := by
  rw [sanitize_data]
  intro hm
  rcases List.mem_map.mp hm with ⟨d, _, hd⟩
  by_cases hkd : nameSanitizeKeeps d = true
  · rw [if_pos hkd] at hd
    subst hd
    rw [hk] at hkd
    exact absurd hkd (by decide)
  · rw [if_neg hkd] at hd
    exact hu hd.symm

theorem computeJsonFilePath_of_fields (cpe : String) (h : 5 ≤ (strings.Split cpe ":").length) :
    computeJsonFilePath cpe = Except.ok
      (filepath.Join [".", sanitize ((strings.Split cpe ":").getD 3 "") "_"],
       filepath.Join [filepath.Join [".", sanitize ((strings.Split cpe ":").getD 3 "") "_"],
         sanitize ((strings.Split cpe ":").getD 4 "") "_" ++ ".json"]) := by
  unfold computeJsonFilePath
  simp only []
  rw [if_neg (by omega)]

/-- C5 (evaluation at the failing inputs): the vendor field `..` passes `sanitize` unchanged
and routes the shard to the parent of the working directory; an empty vendor field and the
vendor field `.` route the shard file into the working directory itself; the replacement of
`./` in `sanitize` never changes anything, the expression having removed every `/` before. -/
theorem computeJsonFilePath_vendor_dots :
    sanitize ".." "_" = ".."
    ∧ computeJsonFilePath "cpe:2.3:a:..:product:1.0:*:*:*:*:*:*:*"
        = Except.ok ("..", "../product.json")
    ∧ sanitize "" "_" = ""
    ∧ computeJsonFilePath "cpe:2.3:a::product:1.0:*:*:*:*:*:*:*" = Except.ok (".", "product.json")
    ∧ sanitize "." "_" = "."
    ∧ computeJsonFilePath "cpe:2.3:a:.:product:1.0:*:*:*:*:*:*:*"
        = Except.ok (".", "product.json")
    ∧ (∀ s : String, sanitize s "_" = nameSanitize_ReplaceAllString s "_") := by
  refine ⟨by decide, by rfl, by decide, by rfl, by decide, by rfl, ?_⟩
  intro s
  apply String.ext
  rw [sanitize_data, nameSanitize_ReplaceAllString_data]

/-- C6: `sanitize(s, "_")` has as many characters as `s`; position by position it keeps the
ASCII letters, digits, underscore, hyphen and dot and puts an underscore for every other
character; so it contains neither `/` nor a space, and an identifier with at least five
fields is routed to the directory and file built from the sanitized fields 3 and 4
(`cpe:2.3:a:Vendor/Name:Pro Duct:*` to `Vendor_Name` and `Vendor_Name/Pro_Duct.json`). -/
theorem sanitize_characterisation (s : String) :
    (sanitize s "_").length = s.length
    ∧ (sanitize s "_").data = s.data.map (fun c =>
        if (('a' ≤ c ∧ c ≤ 'z') ∨ ('A' ≤ c ∧ c ≤ 'Z') ∨ ('0' ≤ c ∧ c ≤ '9')
          ∨ c = '_' ∨ c = '-' ∨ c = '.') then c else '_')
    ∧ '/' ∉ (sanitize s "_").data
    ∧ ' ' ∉ (sanitize s "_").data
    ∧ (5 ≤ (strings.Split s ":").length →
        computeJsonFilePath s = Except.ok
          (filepath.Join [".", sanitize ((strings.Split s ":").getD 3 "") "_"],
           filepath.Join [filepath.Join [".", sanitize ((strings.Split s ":").getD 3 "") "_"],
             sanitize ((strings.Split s ":").getD 4 "") "_" ++ ".json"])
        ∧ '/' ∉ (sanitize ((strings.Split s ":").getD 3 "") "_").data
        ∧ ' ' ∉ (sanitize ((strings.Split s ":").getD 3 "") "_").data
        ∧ '/' ∉ (sanitize ((strings.Split s ":").getD 4 "") "_").data
        ∧ ' ' ∉ (sanitize ((strings.Split s ":").getD 4 "") "_").data)
    ∧ computeJsonFilePath "cpe:2.3:a:Vendor/Name:Pro Duct:*"
        = Except.ok ("Vendor_Name", "Vendor_Name/Pro_Duct.json") := by
  refine ⟨?_, ?_, ?_, ?_, ?_, by rfl⟩
  · show (sanitize s "_").data.length = s.data.length
    rw [sanitize_data, List.length_map]
  · rw [sanitize_data]
    apply List.map_congr_left
    intro c _
    by_cases hk : nameSanitizeKeeps c = true
    · rw [if_pos hk, if_pos ((nameSanitizeKeeps_iff c).mp hk)]
    · rw [if_neg hk, if_neg (fun h => hk ((nameSanitizeKeeps_iff c).mpr h))]
  · exact sanitize_not_mem s '/' (by decide) (by decide)
  · exact sanitize_not_mem s ' ' (by decide) (by decide)
  · intro h
    exact ⟨computeJsonFilePath_of_fields s h,
      sanitize_not_mem _ '/' (by decide) (by decide),
      sanitize_not_mem _ ' ' (by decide) (by decide),
      sanitize_not_mem _ '/' (by decide) (by decide),
      sanitize_not_mem _ ' ' (by decide) (by decide)⟩

/-- C6 at the identifier `cpe:2.3:a:Vendor/Name:Pro Duct:*`: the sanitized fields are
`Vendor_Name` and `Pro_Duct`. -/
theorem sanitize_characterisation_witness :
    5 ≤ (strings.Split "cpe:2.3:a:Vendor/Name:Pro Duct:*" ":").length
    ∧ sanitize "Vendor/Name" "_" = "Vendor_Name"
    ∧ sanitize "Pro Duct" "_" = "Pro_Duct"
    ∧ '/' ∉ (sanitize ((strings.Split "cpe:2.3:a:Vendor/Name:Pro Duct:*" ":").getD 3 "") "_").data
    ∧ ' ' ∉ (sanitize ((strings.Split "cpe:2.3:a:Vendor/Name:Pro Duct:*" ":").getD 4 "") "_").data :=
  ⟨by decide, by decide, by decide,
    ((sanitize_characterisation "cpe:2.3:a:Vendor/Name:Pro Duct:*").2.2.2.2.1 (by decide)).2.1,
    ((sanitize_characterisation "cpe:2.3:a:Vendor/Name:Pro Duct:*").2.2.2.2.1 (by decide)).2.2.2.2⟩

/-- C7: `computeJsonFilePath` returns an error exactly when the identifier has fewer than five
colon-separated fields; with at least five fields it succeeds, and two identifiers that
agree on fields 3 and 4 get the same result. -/
theorem computeJsonFilePath_error_iff (cpe : String) :
    ((∃ e, computeJsonFilePath cpe = Except.error e) ↔ (strings.Split cpe ":").length < 5)
    ∧ (5 ≤ (strings.Split cpe ":").length → ∃ r, computeJsonFilePath cpe = Except.ok r)
    ∧ (∀ other : String, 5 ≤ (strings.Split cpe ":").length →
        5 ≤ (strings.Split other ":").length →
        (strings.Split cpe ":")[3]? = (strings.Split other ":")[3]? →
        (strings.Split cpe ":")[4]? = (strings.Split other ":")[4]? →
        computeJsonFilePath cpe = computeJsonFilePath other) := by
  refine ⟨?_, ?_, ?_⟩
  · constructor
    · rintro ⟨e, he⟩
      by_contra hlen
      rw [computeJsonFilePath_of_fields cpe (by omega)] at he
      cases he
    · intro hlen
      refine ⟨"invalid CPE string format", ?_⟩
      unfold computeJsonFilePath
      simp only []
      rw [if_pos hlen]
  · intro hlen
    exact ⟨_, computeJsonFilePath_of_fields cpe hlen⟩
  · intro other h1 h2 h3 h4
    rw [computeJsonFilePath_of_fields cpe h1, computeJsonFilePath_of_fields other h2]
    simp only [List.getD_eq_getElem?_getD, h3, h4]

/-- C7 at two identifiers of the same vendor and product that differ in part and version. -/
theorem computeJsonFilePath_error_iff_witness :
    computeJsonFilePath "cpe:2.3:a:acme:tool:1.0:*" = computeJsonFilePath "cpe:2.3:o:acme:tool:2.0"
    ∧ (∃ r, computeJsonFilePath "cpe:2.3:a:acme:tool:1.0:*" = Except.ok r) :=
  ⟨(computeJsonFilePath_error_iff "cpe:2.3:a:acme:tool:1.0:*").2.2 "cpe:2.3:o:acme:tool:2.0"
      (by decide) (by decide) (by decide) (by decide),
    (computeJsonFilePath_error_iff "cpe:2.3:a:acme:tool:1.0:*").2.1 (by decide)⟩

/-! ## Theorems: window partitioning -/

theorem MaxIntervalDate_eq : MaxIntervalDate = 10281600000000000 := by decide

/-- The loop started at instant `s` with at most `k` windows to go, `k` below the fuel,
appends the `k` windows `[s + i * MaxIntervalDate, min (s + (i+1) * MaxIntervalDate) b)`. -/
theorem partitionLoop_spec (b : Int) (k : Nat) :
    ∀ (fuel : Nat) (s : Int) (acc : List (Time × Time)),
      k < fuel → b - s ≤ (k : Int) * MaxIntervalDate →
      (0 < k → ((k : Int) - 1) * MaxIntervalDate < b - s) →
      partitionLoop { unixNano := b } fuel { unixNano := s } acc =
        some (acc ++ (List.range k).map (fun (i : Nat) =>
          (({ unixNano := s + (i : Int) * MaxIntervalDate } : Time),
           ({ unixNano := min (s + ((i : Int) + 1) * MaxIntervalDate) b } : Time)))) := by
  induction k with
  | zero =>
    intro fuel s acc hf h1 _
    obtain ⟨f, rfl⟩ : ∃ f, fuel = f + 1 := ⟨fuel - 1, by omega⟩
    have hlt : ¬ s < b := by simp at h1; omega
    simp [partitionLoop, Time.Before, hlt]
  | succ k ih =>
    intro fuel s acc hf h1 h2
    obtain ⟨f, rfl⟩ : ∃ f, fuel = f + 1 := ⟨fuel - 1, by omega⟩
    have h2 := h2 (by omega)
    rw [MaxIntervalDate_eq] at h1 h2
    push_cast at h1 h2
    have hlt : s < b := by omega
    have hrec := ih f (s + MaxIntervalDate)
      (acc ++ [(({ unixNano := s } : Time),
        ({ unixNano := min (s + MaxIntervalDate) b } : Time))])
      (by omega) (by rw [MaxIntervalDate_eq]; omega)
      (by intro hk; rw [MaxIntervalDate_eq]; omega)
    have hend : (if ({ unixNano := s + MaxIntervalDate } : Time).After { unixNano := b } = true
        then ({ unixNano := b } : Time) else { unixNano := s + MaxIntervalDate })
        = { unixNano := min (s + MaxIntervalDate) b } := by
      by_cases hc : b < s + MaxIntervalDate
      · simp [Time.After, hc, min_eq_right (le_of_lt hc)]
      · simp [Time.After, hc, min_eq_left (not_lt.mp hc)]
    simp only [partitionLoop, Time.Before, hlt, decide_True, if_true, Time.Add]
    rw [hend, hrec, List.range_succ_eq_map, List.map_cons, List.map_map, List.append_assoc]
    have hmap : List.map (fun (i : Nat) =>
          (({ unixNano := s + MaxIntervalDate + (i : Int) * MaxIntervalDate } : Time),
           ({ unixNano := min (s + MaxIntervalDate + ((i : Int) + 1) * MaxIntervalDate) b } : Time)))
          (List.range k) =
        List.map ((fun (i : Nat) =>
          (({ unixNano := s + (i : Int) * MaxIntervalDate } : Time),
           ({ unixNano := min (s + ((i : Int) + 1) * MaxIntervalDate) b } : Time))) ∘ Nat.succ)
          (List.range k) := by
      apply List.map_congr_left
      intro i _
      simp only [Function.comp, Nat.succ_eq_add_one, Nat.cast_add, Nat.cast_one]
      have e1 : s + MaxIntervalDate + (i : Int) * MaxIntervalDate
          = s + ((i : Int) + 1) * MaxIntervalDate := by ring
      have e2 : s + MaxIntervalDate + ((i : Int) + 1) * MaxIntervalDate
          = s + ((i : Int) + 1 + 1) * MaxIntervalDate := by ring
      rw [e1, e2]
    rw [hmap]
    simp

/-- C4: for `lastRunTime` strictly before `now` the partition loop terminates (every fuel above
the number of windows yields the same list) and dispatches exactly
`ceil((now - lastRunTime) / MaxIntervalDate)` sub-windows: the first starts at `lastRunTime`,
each next one starts where the previous one ends, each has a positive length of at most
`MaxIntervalDate`, and the last one ends at `now`; a span of 250 days gives 3 sub-windows. -/
theorem partitionWindows_spec (lastRunTime now : Time) (h : lastRunTime.Before now = true) :
    ∃ ws : List (Time × Time),
      (∀ fuel, ws.length < fuel → partitionWindows fuel lastRunTime now = some ws)
      ∧ now.unixNano - lastRunTime.unixNano ≤ (ws.length : Int) * MaxIntervalDate
      ∧ ((ws.length : Int) - 1) * MaxIntervalDate < now.unixNano - lastRunTime.unixNano
      ∧ ws.head?.map Prod.fst = some lastRunTime
      ∧ (∀ i, i + 1 < ws.length → ws[i + 1]?.map Prod.fst = ws[i]?.map Prod.snd)
      ∧ (∀ w ∈ ws, 0 < w.2.unixNano - w.1.unixNano
          ∧ w.2.unixNano - w.1.unixNano ≤ MaxIntervalDate)
      ∧ ws.getLast?.map Prod.snd = some now
      ∧ (now.unixNano - lastRunTime.unixNano = 250 * 24 * Hour → ws.length = 3) := by
  obtain ⟨a⟩ := lastRunTime
  obtain ⟨b⟩ := now
  have hab : a < b := by simpa [Time.Before] using h
  obtain ⟨n, hn⟩ : ∃ n : Nat, (n : Int) = (b - a + 10281600000000000 - 1) / 10281600000000000 :=
    ⟨((b - a + 10281600000000000 - 1) / 10281600000000000).toNat, by omega⟩
  have hn1 : b - a ≤ (n : Int) * 10281600000000000 := by omega
  have hn2 : ((n : Int) - 1) * 10281600000000000 < b - a := by omega
  have hnpos : 0 < n := by omega
  refine ⟨(List.range n).map (fun (i : Nat) =>
      (({ unixNano := a + (i : Int) * MaxIntervalDate } : Time),
       ({ unixNano := min (a + ((i : Int) + 1) * MaxIntervalDate) b } : Time))), ?_⟩
  simp only [List.length_map, List.length_range]
  refine ⟨?_, ?_, ?_, ?_, ?_, ?_, ?_, ?_⟩
  · intro fuel hf
    have hs := partitionLoop_spec b n fuel a [] hf (by rw [MaxIntervalDate_eq]; exact hn1)
      (by intro _; rw [MaxIntervalDate_eq]; exact hn2)
    simpa [partitionWindows] using hs
  · rw [MaxIntervalDate_eq]; exact hn1
  · rw [MaxIntervalDate_eq]; exact hn2
  · obtain ⟨m, rfl⟩ : ∃ m, n = m + 1 := ⟨n - 1, by omega⟩
    simp [List.range_succ_eq_map]
  · intro i hi
    rw [List.getElem?_map, List.getElem?_map, List.getElem?_range hi,
      List.getElem?_range (by omega : i < n)]
    simp only [Option.map_some', MaxIntervalDate_eq]
    have hmin : min (a + ((i : Int) + 1) * 10281600000000000) b
        = a + ((i : Int) + 1) * 10281600000000000 := by
      apply min_eq_left
      omega
    rw [hmin]
    push_cast
    rfl
  · intro w hw
    rcases List.mem_map.mp hw with ⟨i, hi, rfl⟩
    have hi2 : i < n := List.mem_range.mp hi
    simp only [MaxIntervalDate_eq]
    rcases le_total (a + ((i : Int) + 1) * 10281600000000000) b with hle | hle
    · rw [min_eq_left hle]; omega
    · rw [min_eq_right hle]; omega
  · obtain ⟨m, rfl⟩ : ∃ m, n = m + 1 := ⟨n - 1, by omega⟩
    rw [List.range_succ, List.map_append, List.map_singleton, List.getLast?_append]
    simp only [List.getLast?_singleton, MaxIntervalDate_eq]
    have hmin : min (a + ((m : Int) + 1) * 10281600000000000) b = b := by
      apply min_eq_right
      push_cast at hn1
      omega
    rw [hmin]
    rfl
  · intro h250
    have hh : b - a = 21600000000000000 := by
      simpa [Hour] using h250
    omega

/-- C4 at a run 250 days after the last one: three sub-windows, found with fuel 4. -/
theorem partitionWindows_spec_witness :
    ∃ ws : List (Time × Time), ws.length = 3
      ∧ partitionWindows 4 (Time.Unix 1700000000)
          { unixNano := 1700000000000000000 + 250 * 24 * Hour } = some ws
      ∧ ws.getLast?.map Prod.snd
          = some ({ unixNano := 1700000000000000000 + 250 * 24 * Hour } : Time) := by
  obtain ⟨ws, hfuel, _, _, _, _, _, hlast, h250⟩ :=
    partitionWindows_spec (Time.Unix 1700000000)
      { unixNano := 1700000000000000000 + 250 * 24 * Hour } (by decide)
  have hlen : ws.length = 3 := h250 (by decide)
  exact ⟨ws, hlen, hfuel 4 (by omega), hlast⟩

/-! ## Theorems: pagination of `fetchCPEs` -/

theorem wrapInt_of_range (x : Int) (h0 : 0 ≤ x) (h1 : x < 2 ^ 63) : wrapInt x = x := by
  unfold wrapInt
  norm_num at h1 ⊢
  omega

theorem buildRequest_resultsPerPage (s e key : String) (p off : Int) :
    (buildRequest s e key p off).resultsPerPage = p := by
  unfold buildRequest
  split <;> rfl

theorem buildRequest_startIndex (s e key : String) (p off : Int) :
    (buildRequest s e key p off).startIndex = off := by
  unfold buildRequest
  split <;> rfl

theorem pageCount_bounds (T P : Nat) (hP : 0 < P) :
    T ≤ max 1 ((T + P - 1) / P) * P
    ∧ (max 1 ((T + P - 1) / P) = 1 ∨ (max 1 ((T + P - 1) / P) - 1) * P < T) := by
  have h1 : (T + P - 1) / P * P ≤ T + P - 1 := Nat.div_mul_le_self _ _
  have h2 : T + P - 1 < (T + P - 1) / P * P + P := Nat.lt_div_mul_add hP
  generalize (T + P - 1) / P = q at h1 h2
  rcases Nat.eq_zero_or_pos q with hq | hq
  · subst hq
    simp at h2
    refine ⟨?_, Or.inl (by simp)⟩
    simp
    omega
  · have hmax : max 1 q = q := max_eq_right hq
    rw [hmax]
    have h3 : (q - 1) * P = q * P - P := by rw [Nat.sub_mul, Nat.one_mul]
    have h4 : P ≤ q * P := Nat.le_mul_of_pos_left P hq
    refine ⟨by omega, Or.inr (by omega)⟩

theorem fetchLoop_paged (cfg : Config) (P : Nat) (all : List NistProduct)
    (newRequest : String → Except String Unit)
    (upstream : Request → Except String Response) (startDate endDate apiKey : String)
    (hTest : cfg.IsTest = false)
    (hup : ∀ req : Request, req.resultsPerPage = (P : Int) → 0 ≤ req.startIndex →
      ∃ resp, upstream req = Except.ok resp ∧ resp.TotalResults = (all.length : Int)
        ∧ resp.Products = (all.drop req.startIndex.toNat).take P)
    (n : Nat) (hn1 : all.length ≤ n * P) (hn2 : n = 1 ∨ (n - 1) * P < all.length)
    (hbound : ((n * P : Nat) : Int) < 2 ^ 63)
    (hreq : ∀ k : Nat, k < n → newRequest
      (buildRequest startDate endDate apiKey (P : Int) ((k * P : Nat) : Int)).url
        = Except.ok ()) :
    ∀ (m k fuel : Nat), k + m = n → 1 ≤ m → m ≤ fuel →
      fetchLoop cfg newRequest upstream startDate endDate apiKey (P : Int) fuel
          ((k * P : Nat) : Int) (all.take (k * P))
          ((List.range k).map (fun (i : Nat) =>
            buildRequest startDate endDate apiKey (P : Int) ((i * P : Nat) : Int)))
        = some { nistProducts := all,
                 requests := (List.range n).map (fun (i : Nat) =>
                   buildRequest startDate endDate apiKey (P : Int) ((i * P : Nat) : Int)) } := by
  intro m
  induction m with
  | zero => intro k fuel _ h; omega
  | succ m ih =>
    intro k fuel hk _ hfuel
    obtain ⟨f, rfl⟩ : ∃ f, fuel = f + 1 := ⟨fuel - 1, by omega⟩
    obtain ⟨resp, hresp, hTot, hProd⟩ :=
      hup (buildRequest startDate endDate apiKey (P : Int) ((k * P : Nat) : Int))
        (buildRequest_resultsPerPage _ _ _ _ _)
        (by rw [buildRequest_startIndex]; exact Int.natCast_nonneg _)
    rw [buildRequest_startIndex, Int.toNat_natCast] at hProd
    have hk1 : (k + 1) * P ≤ n * P := Nat.mul_le_mul_right P (by omega)
    have hoff : wrapInt (((k * P : Nat) : Int) + (P : Int)) = (((k + 1) * P : Nat) : Int) := by
      have e : ((k * P : Nat) : Int) + (P : Int) = (((k + 1) * P : Nat) : Int) := by
        push_cast; ring
      rw [e]
      apply wrapInt_of_range
      · exact Int.natCast_nonneg _
      · have : (((k + 1) * P : Nat) : Int) ≤ ((n * P : Nat) : Int) := by exact_mod_cast hk1
        omega
    have htake : List.take (k * P) all ++ resp.Products = List.take ((k + 1) * P) all := by
      rw [hProd, Nat.add_mul, Nat.one_mul, List.take_add]
    have hsent : List.map (fun (i : Nat) =>
          buildRequest startDate endDate apiKey (P : Int) ((i * P : Nat) : Int)) (List.range k)
          ++ [buildRequest startDate endDate apiKey (P : Int) ((k * P : Nat) : Int)]
        = List.map (fun (i : Nat) =>
          buildRequest startDate endDate apiKey (P : Int) ((i * P : Nat) : Int))
          (List.range (k + 1)) := by
      rw [List.range_succ, List.map_append, List.map_singleton]
    rw [fetchLoop]
    simp only [hTest, Bool.false_and, Bool.false_eq_true, if_false]
    rw [hreq k (by omega)]
    simp only []
    rw [hresp]
    simp only []
    rw [hoff, htake, hsent, hTot]
    by_cases hlast : m = 0
    · have hkn : k + 1 = n := by omega
      have hge : (all.length : Int) ≤ (((k + 1) * P : Nat) : Int) := by
        rw [hkn]; exact_mod_cast hn1
      rw [if_pos hge, hkn, List.take_of_length_le hn1]
    · have hlt : (k + 1) * P < all.length := by
        rcases hn2 with h1 | h2
        · omega
        · exact lt_of_le_of_lt (Nat.mul_le_mul_right P (by omega)) h2
      have hnge : ¬ (all.length : Int) ≤ (((k + 1) * P : Nat) : Int) := by
        intro hc
        have : all.length ≤ (k + 1) * P := by exact_mod_cast hc
        omega
      rw [if_neg hnge]
      exact ih (k + 1) f (by omega) (by omega) (by omega)

/-- C3: with test mode off, a page size `P > 0` and an upstream that answers every request at
offset `o` without error, with the total `T` and the records `o .. min(o+P, T)-1` of a fixed
list of `T` records, `fetchCPEs` terminates (every fuel of at least `max(1, ceil(T/P))` gives
the same run), issues exactly `max(1, ceil(T/P))` requests, at the offsets `0, P, 2P, ...`,
and returns the `T` records in order. That every request is answered includes that it can be
built: `http.NewRequest` accepts the URL of each of these offsets (it would refuse dates
with a control character, and `fetchCPEs` would return `nil`). `P` is a Go `int` and `T` the
length of a slice, which is what the two range hypotheses say. -/
theorem fetchCPEs_pagination (cfg : Config) (P : Nat) (all : List NistProduct)
    (newRequest : String → Except String Unit)
    (upstream : Request → Except String Response) (startDate endDate apiKey : String)
    (hTest : cfg.IsTest = false) (hPage : cfg.ResultsPerPage = (P : Int))
    (hP : 0 < P) (hPint : (P : Int) < 2 ^ 63) (hT : (all.length : Int) ≤ 2 ^ 62)
    (hreq : ∀ k : Nat, k < max 1 ((all.length + P - 1) / P) → newRequest
      (buildRequest startDate endDate apiKey (P : Int) ((k * P : Nat) : Int)).url
        = Except.ok ())
    (hup : ∀ req : Request, req.resultsPerPage = (P : Int) → 0 ≤ req.startIndex →
      ∃ resp, upstream req = Except.ok resp ∧ resp.TotalResults = (all.length : Int)
        ∧ resp.Products = (all.drop req.startIndex.toNat).take P) :
    ∃ run : FetchRun,
      (∀ fuel, max 1 ((all.length + P - 1) / P) ≤ fuel →
        fetchCPEs cfg newRequest upstream fuel startDate endDate apiKey = some run)
      ∧ run.nistProducts = all
      ∧ run.requests.length = max 1 ((all.length + P - 1) / P)
      ∧ run.requests.map (fun r => r.startIndex) =
          (List.range (max 1 ((all.length + P - 1) / P))).map
            (fun (k : Nat) => ((k * P : Nat) : Int))
      ∧ (∀ r ∈ run.requests, r.resultsPerPage = (P : Int)) := by
  obtain ⟨hn1, hn2⟩ := pageCount_bounds all.length P hP
  generalize max 1 ((all.length + P - 1) / P) = n at hn1 hn2 hreq
  have hbound : ((n * P : Nat) : Int) < 2 ^ 63 := by
    norm_num at hPint hT ⊢
    rcases hn2 with h1 | h2
    · subst h1; simpa using hPint
    · rcases Nat.eq_zero_or_pos (n - 1) with h0 | h0
      · have hle : n * P ≤ 1 * P := Nat.mul_le_mul_right P (by omega)
        omega
      · have h4 : P ≤ (n - 1) * P := Nat.le_mul_of_pos_left P h0
        have h5 : n * P = (n - 1) * P + P := by
          have : n = (n - 1) + 1 := by omega
          conv_lhs => rw [this, Nat.add_mul, Nat.one_mul]
        omega
  have hnpos : 1 ≤ n := by
    rcases hn2 with h1 | h2
    · omega
    · rcases Nat.eq_zero_or_pos n with h0 | h0
      · subst h0
        rw [Nat.zero_mul] at hn1
        have h3 : (0 - 1) * P = 0 := by simp
        rw [h3] at h2
        omega
      · exact h0
  refine ⟨{ nistProducts := all,
            requests := (List.range n).map (fun (i : Nat) =>
              buildRequest startDate endDate apiKey (P : Int) ((i * P : Nat) : Int)) },
    ?_, rfl, by simp, ?_, ?_⟩
  · intro fuel hfuel
    have hloop := fetchLoop_paged cfg P all newRequest upstream startDate endDate apiKey hTest
      hup n hn1 hn2 hbound hreq n 0 fuel (by omega) hnpos hfuel
    simp only [Nat.zero_mul, List.take_zero, List.range_zero, List.map_nil, Nat.cast_zero]
      at hloop
    unfold fetchCPEs
    simp only [hTest, Bool.false_eq_true, if_false, hPage]
    exact hloop
  · simp only [List.map_map]
    apply List.map_congr_left
    intro k _
    exact buildRequest_startIndex _ _ _ _ _
  · intro r hr
    rcases List.mem_map.mp hr with ⟨i, _, rfl⟩
    exact buildRequest_resultsPerPage _ _ _ _ _

/-- C3 at `T = 25`, `P = 10`: three requests, at the offsets 0, 10 and 20, and all 25 records
returned. -/
theorem fetchCPEs_pagination_witness :
    ∃ run : FetchRun,
      fetchCPEs { sourceConfig with ResultsPerPage := 10 } refuseControlBytes
        (pagedUpstream (sampleCatalog 25)) 3
        "2024-01-01T00:00:00Z" "2024-02-01T00:00:00Z" "key" = some run
      ∧ run.nistProducts = sampleCatalog 25
      ∧ run.requests.map (fun r => r.startIndex) = [0, 10, 20] := by
  obtain ⟨run, hfuel, hall, _, hoff, _⟩ :=
    fetchCPEs_pagination { sourceConfig with ResultsPerPage := 10 } 10 (sampleCatalog 25)
      refuseControlBytes (pagedUpstream (sampleCatalog 25))
      "2024-01-01T00:00:00Z" "2024-02-01T00:00:00Z" "key"
      rfl rfl (by decide) (by norm_num) (by simp [sampleCatalog])
      (by
        intro k hk
        have hk3 : k < 3 := by simpa [sampleCatalog] using hk
        interval_cases k <;> rfl)
      (by
        intro req h1 _
        exact ⟨_, rfl, rfl, by rw [h1]; rfl⟩)
  have hlen : (sampleCatalog 25).length = 25 := by simp [sampleCatalog]
  rw [hlen] at hfuel hoff
  exact ⟨run, hfuel 3 (by decide), hall, by rw [hoff]; decide⟩

/-- The exit of lines 250-254: when the request cannot be built (here a start date with a
line feed), `fetchCPEs` returns `nil` and nothing has been sent. -/
theorem fetchCPEs_request_refused :
    fetchCPEs sourceConfig refuseControlBytes (pagedUpstream (sampleCatalog 2)) 1
      "2024-01-01T00:00:00Z\n" "2024-02-01T00:00:00Z" "key"
      = some { nistProducts := [], requests := [] } := by
  decide

/-! ## Theorems: the dates handed to `fetchCPEs` -/

theorem FormatISO8601_of_unixSec (loc : Location) (t u : Time) (h : t.unixSec = u.unixSec) :
    t.FormatISO8601 loc = u.FormatISO8601 loc := by
  unfold Time.FormatISO8601
  rw [h]

/-- C10 (evaluation at the failing inputs): for a run half a second after a whole-second
`lastRunTime`, and for a run 119 days and half a second after it, the partitioned branch
dispatches a sub-window whose two formatted dates are the same string, in every location of
the process (in UTC the string is the one shown), and `fetchCPEs` then issues the request
without date filters. -/
theorem dispatchedDates_subsecond_window :
    dispatchedDates UTC 2 (Time.Unix 1700000000) { unixNano := 1700000000500000000 }
      = some [("2023-11-14T22:13:20Z", "2023-11-14T22:13:20Z")]
    ∧ dispatchedDates UTC 3 (Time.Unix 1700000000)
        { unixNano := 1700000000000000000 + MaxIntervalDate + 500000000 }
      = some [("2023-11-14T22:13:20Z", "2024-03-12T22:13:20Z"),
              ("2024-03-12T22:13:20Z", "2024-03-12T22:13:20Z")]
    ∧ (fetchCPEs sourceConfig refuseControlBytes (pagedUpstream (sampleCatalog 2)) 1
        "2024-03-12T22:13:20Z" "2024-03-12T22:13:20Z" "key").map (fun run => run.requests)
      = some [{ url := "https://services.nvd.nist.gov/rest/json/cpes/2.0/?resultsPerPage=10000&startIndex=0",
                lastModStartDate := none, lastModEndDate := none, resultsPerPage := 10000,
                startIndex := 0, apiKey := "key" }]
    ∧ (∀ loc : Location, ∃ d : String,
        dispatchedDates loc 2 (Time.Unix 1700000000) { unixNano := 1700000000500000000 }
          = some [(d, d)])
    ∧ (∀ loc : Location, ∃ d1 d2 : String,
        dispatchedDates loc 3 (Time.Unix 1700000000)
            { unixNano := 1700000000000000000 + MaxIntervalDate + 500000000 }
          = some [(d1, d2), (d2, d2)])
    ∧ (∀ (d apiKey : String) (resultsPerPage offset : Int),
        (buildRequest d d apiKey resultsPerPage offset).lastModStartDate = none
        ∧ (buildRequest d d apiKey resultsPerPage offset).lastModEndDate = none
        ∧ (buildRequest d d apiKey resultsPerPage offset).url =
            ApiEndpoint ++ "?resultsPerPage=" ++ toString resultsPerPage
              ++ "&startIndex=" ++ toString offset) := by
  refine ⟨by decide, by decide, by decide, ?_, ?_, ?_⟩
  · intro loc
    refine ⟨({ unixNano := 1700000000500000000 } : Time).FormatISO8601 loc, ?_⟩
    have hw : partitionWindows 2 (Time.Unix 1700000000) { unixNano := 1700000000500000000 }
        = some [(Time.Unix 1700000000, { unixNano := 1700000000500000000 })] := by decide
    unfold dispatchedDates
    rw [hw]
    simp only [Option.map_some', List.map_cons, List.map_nil]
    rw [FormatISO8601_of_unixSec loc (Time.Unix 1700000000)
      { unixNano := 1700000000500000000 } (by decide)]
  · intro loc
    refine ⟨(Time.Unix 1700000000).FormatISO8601 loc,
      ({ unixNano := 1710281600500000000 } : Time).FormatISO8601 loc, ?_⟩
    have hw : partitionWindows 3 (Time.Unix 1700000000)
          { unixNano := 1700000000000000000 + MaxIntervalDate + 500000000 }
        = some [(Time.Unix 1700000000, { unixNano := 1710281600000000000 }),
                ({ unixNano := 1710281600000000000 }, { unixNano := 1710281600500000000 })] := by
      decide
    unfold dispatchedDates
    rw [hw]
    simp only [Option.map_some', List.map_cons, List.map_nil]
    rw [FormatISO8601_of_unixSec loc { unixNano := 1710281600000000000 }
      { unixNano := 1710281600500000000 } (by decide)]
  · intro d apiKey resultsPerPage offset
    unfold buildRequest
    simp

end CpedbAggregator
